import Mathlib

/-!
Verification development for the parsley configuration-resolution engine.

The Python repository resolves a typed configuration value from several
partial sources (base defaults, a YAML config file, command-line fragments,
an in-memory override object) with a fixed precedence order, recursively.
This file gives a shallow embedding of the data model and the operations
(value trees, the precedence merger, sentinel pruning, the union-aware
decoder trial loop, per-field resolution, the package-path rewrite, the
parsing pipeline and the shadow-schema derivation) and proves or refutes
the stated properties about them.
-/

/-- A Value Tree node: the untyped nested-mapping representation of
configuration data (what YAML parsing or a flattened CLI dict produces).
`notfilled` embeds the parsley sentinel object (sentinels.py); `dict`
holds entries in insertion order, mirroring a Python dict. -/
inductive Value where
  | int : Int → Value
  | str : String → Value
  | bool : Bool → Value
  | notfilled : Value
  | list : List Value → Value
  | dict : List (String × Value) → Value

/-- Python `d[key]` on an insertion-ordered mapping: first entry with the
given key. -/
def lookupV : List (String × Value) → String → Option Value
  | [], _ => none
  | (k, v) :: rest, key => if k = key then some v else lookupV rest key

/-- Python `d[key] = v`: replace the value at an existing key in place,
otherwise append the new entry at the end. -/
def setKey : List (String × Value) → String → Value → List (String × Value)
  | [], key, v => [(key, v)]
  | (k, w) :: rest, key, v =>
      if k = key then (key, v) :: rest else (k, w) :: setKey rest key v

/-- Keys of a mapping are pairwise distinct (always true of a Python dict). -/
def nodupKeys (l : List (String × Value)) : Prop :=
  (l.map Prod.fst).Nodup

instance (l : List (String × Value)) : Decidable (nodupKeys l) := by
  unfold nodupKeys
  infer_instance

/-- `isinstance(v, dict)`. -/
def Value.isDict : Value → Bool
  | Value.dict _ => true
  | _ => false

/-- `is_notfilled` from sentinels.py: the value is the unfilled sentinel. -/
def is_notfilled : Value → Bool
  | Value.notfilled => true
  | _ => false

/-- Embedding of `merge_nested_dicts` (utils.py): copy the low dict, then
walk the high dict in order; when both sides hold a nested dict at a key,
merge recursively, otherwise the high value overwrites outright. -/
def merge_nested_dicts : List (String × Value) → List (String × Value) → List (String × Value)
  | d1, [] => d1
  | d1, (key, Value.dict m2) :: rest =>
      (match lookupV d1 key with
       | some (Value.dict m1) =>
           merge_nested_dicts (setKey d1 key (Value.dict (merge_nested_dicts m1 m2))) rest
       | _ => merge_nested_dicts (setKey d1 key (Value.dict m2)) rest)
  | d1, (key, val) :: rest => merge_nested_dicts (setKey d1 key val) rest
termination_by _ d2 => sizeOf d2

/-- The per-key combination the merger applies: recursive merge when both
sides are nested dicts, otherwise the high side wins outright. -/
def mergeVal (low : Option Value) (high : Value) : Value :=
  match low, high with
  | some (Value.dict m1), Value.dict m2 => Value.dict (merge_nested_dicts m1 m2)
  | _, _ => high

/-- Embedding of `remove_notfilled_values` (utils.py), on the entries of a
dict: walk the entries in order; recurse into nested dicts, keeping them
only when the pruned nested dict is non-empty; drop entries whose value is
the sentinel; keep every other value (including lists) untouched. -/
def remove_notfilled_values : List (String × Value) → List (String × Value)
  | [] => []
  | (k, Value.dict m) :: rest =>
      if (remove_notfilled_values m).isEmpty then remove_notfilled_values rest
      else (k, Value.dict (remove_notfilled_values m)) :: remove_notfilled_values rest
  | (k, v) :: rest =>
      if is_notfilled v then remove_notfilled_values rest
      else (k, v) :: remove_notfilled_values rest
termination_by l => sizeOf l

/-- Top level of `remove_notfilled_values`: a non-dict input is returned
untouched. -/
def remove_notfilled_top : Value → Value
  | Value.dict m => Value.dict (remove_notfilled_values m)
  | v => v

/-- Whether a sentinel occurs anywhere in a value tree, recursively,
including inside sequences. -/
def contains_notfilled : Value → Bool
  | Value.notfilled => true
  | Value.dict [] => false
  | Value.dict ((_, v) :: rest) => contains_notfilled v || contains_notfilled (Value.dict rest)
  | Value.list [] => false
  | Value.list (v :: rest) => contains_notfilled v || contains_notfilled (Value.list rest)
  | _ => false
termination_by v => sizeOf v

/-- The shape `remove_notfilled_values` actually guarantees: no entry value
is the sentinel, and every nested dict entry is non-empty and recursively
clean. Values inside lists are not inspected. -/
def pruned_entries_clean : List (String × Value) → Bool
  | [] => true
  | (_, Value.notfilled) :: _ => false
  | (_, Value.dict m) :: rest =>
      !(m.isEmpty) && pruned_entries_clean m && pruned_entries_clean rest
  | (_, _) :: rest => pruned_entries_clean rest
termination_by l => sizeOf l

/-- Binding a value tree against a flat record whose fields all carry
defaults, as `dacite.from_dict` does in parser.py: every schema field takes
the tree value when present, otherwise its declared default. Extra keys of
the tree are ignored (dacite non-strict mode). -/
def from_dict_fill_defaults : List (String × Value) → List (String × Value) → List (String × Value)
  | [], _ => []
  | (f, dflt) :: rest, m => (f, (lookupV m f).getD dflt) :: from_dict_fill_defaults rest m

/-- Every value in the mapping is a leaf (not a nested dict): the shape of
a flat record such as the precedence-law example schema. -/
def all_leaf_values (l : List (String × Value)) : Bool :=
  l.all (fun kv => !(kv.2.isDict))

/-- First defined option: the fall-through used to phrase source
precedence. -/
def first_some (a b : Option Value) : Option Value :=
  match a with
  | some v => some v
  | none => b

/-- Embedding of `Parsley.parse_arguments_with_command_line_args`
(parser.py), for a flat record schema whose fields all have defaults.
`defaults` is `asdict(args_dataclass_name())`; `config_file` is the
resolved config-file tree when a config file is given, otherwise the
default instance stands in (`self.args_config_file = asdict(cls())`).
The source merges command line with the extra-args override, merges the
config-file tree below that, then binds with `dacite.from_dict` (defaults
fill the gaps); the second resolution pass over `asdict(dataclass_args)`
is a second default-filling bind, the identity on a flat record. -/
def parse_arguments_with_command_line_args
    (defaults : List (String × Value))
    (config_file : Option (List (String × Value)))
    (args_command_line : List (String × Value))
    (extra_args_dict : List (String × Value)) : List (String × Value) :=
  let first_merged_args := merge_nested_dicts args_command_line extra_args_dict
  let args_config_file :=
    match config_file with
    | some cfg => cfg
    | none => defaults
  let merged_args := merge_nested_dicts args_config_file first_merged_args
  let dataclass_args := from_dict_fill_defaults defaults merged_args
  from_dict_fill_defaults defaults dataclass_args

/-- The per-member failure reason recorded by the union branch of
`from_dict_with_union_handling` (utils.py):
`f"Failed with {union_type}: {inner_error}"`. -/
def union_fail_msg (tyName err : String) : String :=
  "Failed with " ++ tyName ++ ": " ++ err

/-- The trial loop of the union branch of `from_dict_with_union_handling`
(utils.py): attempt members in declared order, return the first success,
and accumulate one failure reason per failed member. -/
def union_attempts (decode : String → Except String Value) :
    List String → List String → Except (List String) Value
  | [], errors => Except.error errors
  | t :: rest, errors =>
      match decode t with
      | Except.ok parsed => Except.ok parsed
      | Except.error e => union_attempts decode rest (errors ++ [union_fail_msg t e])

/-- Embedding of the Union branch of `from_dict_with_union_handling`
(utils.py): `union_types = get_args(data_class)` are attempted in declared
order via the recursive call, modelled by the `decode` parameter; on
exhaustion the source raises one aggregate exception whose message joins
the accumulated reasons, modelled as the reason list itself. -/
def from_dict_with_union_handling (decode : String → Except String Value)
    (union_types : List String) : Except (List String) Value :=
  union_attempts decode union_types []

/-- The message of the `ValueError` raised by
`resolve_extended_object_to_dict_one_field` when a record field has
neither an inline value nor a path reference in strict mode. -/
def missing_value_or_path_msg (fieldName : String) : String :=
  "Exactly one of the fields \x27" ++ fieldName ++ "\x27 or \x27" ++ fieldName ++
    "_path_to_yaml_file\x27 must be provided, not neither."

/-- Embedding of `resolve_extended_object_to_dict_one_field`
(recursive_dataclass_with_path_to_yaml.py). `is_record_field` models
`is_or_contains_dataclass(field.type) and not value_base`; `val`,
`path_val` and `overwrite_val` are the three sibling attributes read off
the extended object, with `Value.notfilled` standing for the sentinel.
The three sub-resolutions are the parameters: `resolve_yaml` models
CASE 1 (`asdict(resolve_yaml_file_to_base_dataclass(path_val, ...))`),
`resolve_direct` models the CASE 2 union-member trial loop over the inline
value (raising when no member matches), `resolve_overwrite` models CASE 3
(resolution of the overwrite object with errors tolerated and sentinels
stripped, hence total). The merge order and the final strict check mirror
the source lines 303-520. -/
def resolve_extended_object_to_dict_one_field
    (fieldName : String)
    (is_record_field : Bool)
    (raise_error_with_notfilled : Bool)
    (val path_val overwrite_val : Value)
    (resolve_yaml : String → Except String (List (String × Value)))
    (resolve_direct : Value → Except String (List (String × Value)))
    (resolve_overwrite : Value → List (String × Value)) : Except String Value :=
  if is_record_field then
    match
      (match path_val with
       | Value.notfilled => Except.ok ([] : List (String × Value))
       | Value.str s =>
           (resolve_yaml s).map (fun resolved => merge_nested_dicts [] resolved)
       | _ => Except.error "path_val must be a str") with
    | Except.error e => Except.error e
    | Except.ok acc1 =>
      match
        (match val with
         | Value.notfilled => Except.ok acc1
         | v => (resolve_direct v).map (fun resolved => merge_nested_dicts acc1 resolved)) with
      | Except.error e => Except.error e
      | Except.ok acc2 =>
        match
          (match overwrite_val with
           | Value.notfilled => Except.ok acc2
           | Value.dict m =>
               Except.ok (merge_nested_dicts acc2 (resolve_overwrite (Value.dict m)))
           | _ => Except.error "overwrite_val must be a dataclass") with
        | Except.error e => Except.error e
        | Except.ok acc3 =>
            if is_notfilled val && is_notfilled path_val && raise_error_with_notfilled then
              Except.error (missing_value_or_path_msg fieldName)
            else
              Except.ok (Value.dict acc3)
  else
    if is_notfilled val && raise_error_with_notfilled then
      Except.error "assert failed: value is notfilled on a non-record field"
    else
      Except.ok val

/-- `str.startswith` via the character list. -/
def str_starts (s p : String) : Bool :=
  p.data.isPrefixOf s.data

/-- `str.endswith` via the character list. -/
def str_ends (s p : String) : Bool :=
  p.data.isSuffixOf s.data

/-- `path[n:]` via the character list. -/
def drop_chars (s : String) (n : Nat) : String :=
  String.mk (s.data.drop n)

/-- `os.path.join(root, rel)` for the shapes reachable here: an absolute
`rel` replaces `root`; otherwise the two are joined with exactly one
separator. -/
def os_path_join (root rel : String) : String :=
  if str_starts rel "/" then rel
  else if root = "" then rel
  else if str_ends root "/" then root ++ rel
  else root ++ "/" ++ rel

/-- Embedding of `resolve_package_path`
(recursive_dataclass_with_path_to_yaml.py): replace a leading
`package://` with the package root, raising when the root is absent;
return any other path unchanged. -/
def resolve_package_path (path : String) (package_root : Option String) :
    Except String String :=
  if str_starts path "package://" then
    match package_root with
    | none =>
        Except.error ("\x27package://\x27 path used (" ++ path ++
          "), but no package_root was provided.")
    | some root => Except.ok (os_path_join root (drop_chars path "package://".length))
  else Except.ok path

/-- A Python type annotation as seen by the shadow-schema generator:
a primitive leaf, `None`, a `Literal`, a dataclass reference by name,
a union, or a generic container. -/
inductive TyExpr where
  | prim : TyExpr
  | noneTy : TyExpr
  | lit : TyExpr
  | data : String → TyExpr
  | union : List TyExpr → TyExpr
  | listOf : TyExpr → TyExpr

/-- A derived dataclass: its generated name and its (transformed) field
annotations. -/
structure DClass where
  name : String
  flds : List (String × TyExpr)

/-- The dataclass declarations of a Python module: name to field list. -/
abbrev TyEnv := List (String × List (String × TyExpr))

/-- The `_processed` cache of
`make_dataclass_with_optional_paths_and_overwrite`: original class name to
derived class. -/
abbrev DCache := List (String × DClass)

def cache_lookup : DCache → String → Option DClass
  | [], _ => none
  | (n, d) :: rest, cls => if n = cls then some d else cache_lookup rest cls

def env_lookup : TyEnv → String → Option (List (String × TyExpr))
  | [], _ => none
  | (n, fs) :: rest, cls => if n = cls then some fs else env_lookup rest cls

mutual

/-- `is_or_contains_dataclass` (utils.py) on a type annotation. -/
def contains_dataclass : TyExpr → Bool
  | TyExpr.data _ => true
  | TyExpr.union ts => contains_dataclass_list ts
  | TyExpr.listOf t => contains_dataclass t
  | _ => false

/-- `is_or_contains_dataclass` over the arguments of a union or container. -/
def contains_dataclass_list : List TyExpr → Bool
  | [] => false
  | t :: ts => contains_dataclass t || contains_dataclass_list ts

end

/-- `Optional[t]`. -/
def optionalTy (t : TyExpr) : TyExpr :=
  TyExpr.union [t, TyExpr.noneTy]

mutual

/-- Embedding of `make_dataclass_with_optional_paths_and_overwrite`
(alternative_dataclasses.py), with a fuel argument making the recursion of
the Python source explicit (every Python-level recursive call consumes one
fuel; `none` means the call did not complete within the given recursion
budget, which for a cyclic type graph is every budget, matching the
unbounded recursion of the source). The cache discipline mirrors the
source exactly: `_processed` is consulted on entry and written only after
every field has been transformed. -/
def derive_optional_paths (env : TyEnv) : Nat → String → DCache → Option (DClass × DCache)
  | 0, _, _ => none
  | Nat.succ fuel, cls, cache =>
      match cache_lookup cache cls with
      | some d => some (d, cache)
      | none =>
          match env_lookup env cls with
          | none => none
          | some flds =>
              match transform_fields env fuel flds cache with
              | none => none
              | some (newFlds, cache2) =>
                  let d := DClass.mk (cls ++ "_WithOptionalPath") newFlds
                  some (d, (cls, d) :: cache2)

/-- The field loop of `make_dataclass_with_optional_paths_and_overwrite`:
transform each annotation; a record-containing field is expanded into the
three sibling fields `<f>`, `<f>_path_to_yaml_file` and `<f>_overwrite`,
a plain field is copied. -/
def transform_fields (env : TyEnv) :
    Nat → List (String × TyExpr) → DCache → Option (List (String × TyExpr) × DCache)
  | 0, _, _ => none
  | Nat.succ _, [], cache => some ([], cache)
  | Nat.succ fuel, (fname, ty) :: rest, cache =>
      match replace_nested_types env fuel ty cache with
      | none => none
      | some (ty2, cache2) =>
          match transform_fields env fuel rest cache2 with
          | none => none
          | some (rest2, cache3) =>
              let expanded :=
                if contains_dataclass ty then
                  [(fname, optionalTy ty2),
                   (fname ++ "_path_to_yaml_file", optionalTy TyExpr.prim),
                   (fname ++ "_overwrite", optionalTy ty2)]
                else [(fname, ty2)]
              some (expanded ++ rest2, cache3)

/-- Embedding of `replace_nested_types` (alternative_dataclasses.py) with
the transform being the derivation itself: Literal annotations are
skipped, a dataclass reference is replaced by its derived class, unions
and containers are walked recursively. -/
def replace_nested_types (env : TyEnv) : Nat → TyExpr → DCache → Option (TyExpr × DCache)
  | 0, _, _ => none
  | Nat.succ _, TyExpr.prim, cache => some (TyExpr.prim, cache)
  | Nat.succ _, TyExpr.noneTy, cache => some (TyExpr.noneTy, cache)
  | Nat.succ _, TyExpr.lit, cache => some (TyExpr.lit, cache)
  | Nat.succ fuel, TyExpr.data cls, cache =>
      match derive_optional_paths env fuel cls cache with
      | none => none
      | some (d, cache2) => some (TyExpr.data d.name, cache2)
  | Nat.succ fuel, TyExpr.union ts, cache =>
      match replace_nested_list env fuel ts cache with
      | none => none
      | some (ts2, cache2) => some (TyExpr.union ts2, cache2)
  | Nat.succ fuel, TyExpr.listOf t, cache =>
      match replace_nested_types env fuel t cache with
      | none => none
      | some (t2, cache2) => some (TyExpr.listOf t2, cache2)

/-- `replace_nested_types` over the arguments of a union or container. -/
def replace_nested_list (env : TyEnv) :
    Nat → List TyExpr → DCache → Option (List TyExpr × DCache)
  | 0, _, _ => none
  | Nat.succ _, [], cache => some ([], cache)
  | Nat.succ fuel, t :: ts, cache =>
      match replace_nested_types env fuel t cache with
      | none => none
      | some (t2, cache2) =>
          match replace_nested_list env fuel ts cache2 with
          | none => none
          | some (ts2, cache3) => some (t2 :: ts2, cache3)

end

/-- A self-referential dataclass graph:
`@dataclass class A: child: A | None = None`. -/
def selfRefEnv : TyEnv :=
  [("A", [("child", TyExpr.union [TyExpr.data "A", TyExpr.noneTy])])]

/-- The observable work of `resolve_extended_dict_to_dict_allow_notfilled`
beyond producing its result: deriving the shadow schema
(`make_partial_dataclass_with_optional_paths`) and binding the input
against it (`from_dict_with_union_handling` then
`resolve_extended_object_to_dict`). -/
inductive ResolutionEffect where
  | derive_shadow_schema : ResolutionEffect
  | bind_to_dataclass : ResolutionEffect

/-- Embedding of `resolve_extended_dict_to_dict_allow_notfilled`
(recursive_dataclass_with_path_to_yaml.py), instrumented with the effects
it performs. The guard `if not dicto: return` comes first; only the
non-empty branch derives the shadow schema for `base_cls` and binds and
resolves the input against it, both modelled by the two function
parameters. -/
def resolve_extended_dict_to_dict_allow_notfilled
    (dicto : List (String × Value)) (base_cls : String)
    (raise_error_with_nones : Bool)
    (make_shadow : String → DClass)
    (bind_and_resolve : DClass → List (String × Value) → Bool → List (String × Value)) :
    List (String × Value) × List ResolutionEffect :=
  if dicto.isEmpty then ([], [])
  else
    let extended_cls := make_shadow base_cls
    (bind_and_resolve extended_cls dicto raise_error_with_nones,
     [ResolutionEffect.derive_shadow_schema, ResolutionEffect.bind_to_dataclass])

theorem lookupV_setKey_self (l : List (String × Value)) (key : String) (v : Value) :
    lookupV (setKey l key v) key = some v := by
  induction l with
  | nil => simp [setKey, lookupV]
  | cons hd tl ih =>
    obtain ⟨k, w⟩ := hd
    by_cases hk : k = key
    · simp [setKey, hk, lookupV]
    · simp [setKey, hk, lookupV, ih]

theorem lookupV_setKey_ne (l : List (String × Value)) (key f : String) (v : Value)
    (h : f ≠ key) : lookupV (setKey l key v) f = lookupV l f := by
  have hkf : ¬ key = f := fun hh => h hh.symm
  induction l with
  | nil =>
    simp only [setKey, lookupV]
    rw [if_neg hkf]
  | cons hd tl ih =>
    obtain ⟨k, w⟩ := hd
    by_cases hk : k = key
    · subst hk
      simp only [setKey, if_pos rfl, lookupV]
      rw [if_neg hkf, if_neg hkf]
    · simp only [setKey, if_neg hk, lookupV]
      by_cases hkf2 : k = f
      · rw [if_pos hkf2, if_pos hkf2]
      · rw [if_neg hkf2, if_neg hkf2]
        exact ih

theorem lookupV_eq_none_of_not_mem (l : List (String × Value)) (f : String)
    (h : f ∉ l.map Prod.fst) : lookupV l f = none := by
  induction l with
  | nil => simp [lookupV]
  | cons hd tl ih =>
    obtain ⟨k, w⟩ := hd
    simp only [List.map_cons, List.mem_cons, not_or] at h
    simp only [lookupV]
    rw [if_neg (fun hh => h.1 hh.symm)]
    exact ih h.2

theorem lookupV_cons_self (f : String) (v : Value) (rest : List (String × Value)) :
    lookupV ((f, v) :: rest) f = some v := by
  simp [lookupV]

theorem lookupV_cons_ne (k f : String) (v : Value) (rest : List (String × Value))
    (h : ¬ k = f) : lookupV ((k, v) :: rest) f = lookupV rest f := by
  simp [lookupV, h]

theorem map_fst_setKey (l : List (String × Value)) (key : String) (v : Value) :
    (setKey l key v).map Prod.fst =
      if key ∈ l.map Prod.fst then l.map Prod.fst else l.map Prod.fst ++ [key] := by
  induction l with
  | nil => simp [setKey]
  | cons hd tl ih =>
    obtain ⟨k, w⟩ := hd
    by_cases hk : k = key
    · subst hk
      simp [setKey]
    · simp only [setKey, if_neg hk, List.map_cons, ih]
      by_cases hmem : key ∈ tl.map Prod.fst
      · rw [if_pos hmem, if_pos (by simp [hmem])]
      · have hnotc : key ∉ (k :: tl.map Prod.fst) := by
          simp only [List.mem_cons, not_or]
          exact ⟨fun hh => hk hh.symm, hmem⟩
        rw [if_neg hmem, if_neg hnotc]
        simp

theorem nodupKeys_setKey (l : List (String × Value)) (key : String) (v : Value)
    (h : nodupKeys l) : nodupKeys (setKey l key v) := by
  unfold nodupKeys at h ⊢
  rw [map_fst_setKey]
  by_cases hmem : key ∈ l.map Prod.fst
  · rwa [if_pos hmem]
  · rw [if_neg hmem]
    simp [List.nodup_append, h, hmem]

theorem merge_cons_dict_both (d1 : List (String × Value)) (key : String)
    (m1 m2 rest : List (String × Value))
    (hlk : lookupV d1 key = some (Value.dict m1)) :
    merge_nested_dicts d1 ((key, Value.dict m2) :: rest) =
      merge_nested_dicts (setKey d1 key (Value.dict (merge_nested_dicts m1 m2))) rest := by
  rw [merge_nested_dicts.eq_2, hlk]

theorem merge_cons_dict_low_not_dict (d1 : List (String × Value)) (key : String)
    (m2 rest : List (String × Value))
    (hno : ∀ m1, lookupV d1 key = some (Value.dict m1) → False) :
    merge_nested_dicts d1 ((key, Value.dict m2) :: rest) =
      merge_nested_dicts (setKey d1 key (Value.dict m2)) rest := by
  rw [merge_nested_dicts.eq_2]
  cases hd1 : lookupV d1 key with
  | none => rfl
  | some v1 =>
    cases v1 with
    | dict m1 => exact absurd hd1 (fun hh => hno m1 hh)
    | int n => rfl
    | str s => rfl
    | bool b => rfl
    | notfilled => rfl
    | list xs => rfl

theorem merge_cons_not_dict (d1 : List (String × Value)) (key : String) (val : Value)
    (rest : List (String × Value)) (hval : val.isDict = false) :
    merge_nested_dicts d1 ((key, val) :: rest) =
      merge_nested_dicts (setKey d1 key val) rest := by
  apply merge_nested_dicts.eq_3
  intro m2 hm
  subst hm
  simp [Value.isDict] at hval

theorem mergeVal_none (v2 : Value) : mergeVal none v2 = v2 := by
  cases v2 <;> rfl

theorem mergeVal_dict_dict (m1 m2 : List (String × Value)) :
    mergeVal (some (Value.dict m1)) (Value.dict m2) =
      Value.dict (merge_nested_dicts m1 m2) := rfl

theorem mergeVal_low_not_dict (v1 v2 : Value) (h : v1.isDict = false) :
    mergeVal (some v1) v2 = v2 := by
  cases v1 <;> simp [Value.isDict] at h ⊢ <;> cases v2 <;> rfl

theorem mergeVal_high_not_dict (o : Option Value) (v2 : Value) (h : v2.isDict = false) :
    mergeVal o v2 = v2 := by
  cases o with
  | none => exact mergeVal_none v2
  | some v1 =>
    cases v1 <;> cases v2 <;> simp [Value.isDict] at h ⊢ <;> rfl

/-- Lookup characterization of the precedence merger: reusable core lemma. -/
theorem lookupV_merge : ∀ (d1 d2 : List (String × Value)), nodupKeys d2 → ∀ f,
    lookupV (merge_nested_dicts d1 d2) f =
      match lookupV d2 f with
      | none => lookupV d1 f
      | some v2 => some (mergeVal (lookupV d1 f) v2) := by
  intro d1 d2
  induction d1, d2 using merge_nested_dicts.induct with
  | case1 d1 =>
    intro _ f
    simp [merge_nested_dicts.eq_1, lookupV]
  | case2 d1 key m2 rest m1 hlk ih1 ih2 =>
    intro h f
    unfold nodupKeys at h
    simp only [List.map_cons, List.nodup_cons] at h
    obtain ⟨hkey, hrest⟩ := h
    rw [merge_cons_dict_both d1 key m1 m2 rest hlk, ih2 hrest f]
    by_cases hf : f = key
    · subst hf
      rw [lookupV_eq_none_of_not_mem rest f hkey, lookupV_setKey_self,
        lookupV_cons_self, hlk]
      rfl
    · rw [lookupV_setKey_ne _ _ _ _ hf,
        lookupV_cons_ne _ _ _ _ (fun hh => hf hh.symm)]
  | case3 d1 key m2 rest hno ih =>
    intro h f
    unfold nodupKeys at h
    simp only [List.map_cons, List.nodup_cons] at h
    obtain ⟨hkey, hrest⟩ := h
    rw [merge_cons_dict_low_not_dict d1 key m2 rest hno, ih hrest f]
    by_cases hf : f = key
    · subst hf
      rw [lookupV_eq_none_of_not_mem rest f hkey, lookupV_setKey_self,
        lookupV_cons_self]
      cases hd1 : lookupV d1 f with
      | none => rfl
      | some v1 =>
        cases v1 with
        | dict m1 => exact absurd hd1 (fun hh => hno m1 hh)
        | int n => rfl
        | str s => rfl
        | bool b => rfl
        | notfilled => rfl
        | list xs => rfl
    · rw [lookupV_setKey_ne _ _ _ _ hf,
        lookupV_cons_ne _ _ _ _ (fun hh => hf hh.symm)]
  | case4 d1 key val rest hnd ih =>
    intro h f
    unfold nodupKeys at h
    simp only [List.map_cons, List.nodup_cons] at h
    obtain ⟨hkey, hrest⟩ := h
    have hvald : val.isDict = false := by
      cases val with
      | dict m => exact absurd rfl (fun hh => hnd m hh)
      | int n => rfl
      | str s => rfl
      | bool b => rfl
      | notfilled => rfl
      | list xs => rfl
    rw [merge_cons_not_dict d1 key val rest hvald, ih hrest f]
    by_cases hf : f = key
    · subst hf
      rw [lookupV_eq_none_of_not_mem rest f hkey, lookupV_setKey_self,
        lookupV_cons_self]
      show some val = some (mergeVal (lookupV d1 f) val)
      rw [mergeVal_high_not_dict _ _ hvald]
    · rw [lookupV_setKey_ne _ _ _ _ hf,
        lookupV_cons_ne _ _ _ _ (fun hh => hf hh.symm)]

theorem nodupKeys_merge : ∀ (d1 d2 : List (String × Value)), nodupKeys d1 →
    nodupKeys (merge_nested_dicts d1 d2) := by
  intro d1 d2
  induction d1, d2 using merge_nested_dicts.induct with
  | case1 d1 => intro h; simpa [merge_nested_dicts.eq_1]
  | case2 d1 key m2 rest m1 hlk ih1 ih2 =>
    intro h
    rw [merge_cons_dict_both d1 key m1 m2 rest hlk]
    exact ih2 (nodupKeys_setKey _ _ _ h)
  | case3 d1 key m2 rest hno ih =>
    intro h
    rw [merge_cons_dict_low_not_dict d1 key m2 rest hno]
    exact ih (nodupKeys_setKey _ _ _ h)
  | case4 d1 key val rest hnd ih =>
    intro h
    have hvald : val.isDict = false := by
      cases val with
      | dict m => exact absurd rfl (fun hh => hnd m hh)
      | int n => rfl
      | str s => rfl
      | bool b => rfl
      | notfilled => rfl
      | list xs => rfl
    rw [merge_cons_not_dict d1 key val rest hvald]
    exact ih (nodupKeys_setKey _ _ _ h)

theorem all_leaf_setKey : ∀ (l : List (String × Value)) (key : String) (v : Value),
    all_leaf_values l = true → v.isDict = false → all_leaf_values (setKey l key v) = true := by
  intro l key v
  induction l with
  | nil =>
    intro _ hv
    simp [setKey, all_leaf_values, hv]
  | cons hd tl ih =>
    obtain ⟨k, w⟩ := hd
    intro h hv
    simp only [all_leaf_values, List.all_cons, Bool.and_eq_true] at h
    by_cases hk : k = key
    · simp only [setKey, if_pos hk, all_leaf_values, List.all_cons, Bool.and_eq_true]
      exact ⟨by simp [hv], h.2⟩
    · simp only [setKey, if_neg hk, all_leaf_values, List.all_cons, Bool.and_eq_true]
      exact ⟨h.1, ih h.2 hv⟩

theorem all_leaf_merge : ∀ d1 d2 : List (String × Value),
    all_leaf_values d1 = true → all_leaf_values d2 = true →
    all_leaf_values (merge_nested_dicts d1 d2) = true := by
  intro d1 d2
  induction d1, d2 using merge_nested_dicts.induct with
  | case1 d1 =>
    intro h1 _
    simpa [merge_nested_dicts.eq_1]
  | case2 d1 key m2 rest m1 hlk ih1 ih2 =>
    intro _ h2
    simp [all_leaf_values, Value.isDict] at h2
  | case3 d1 key m2 rest hno ih =>
    intro _ h2
    simp [all_leaf_values, Value.isDict] at h2
  | case4 d1 key val rest hnd ih =>
    intro h1 h2
    simp only [all_leaf_values, List.all_cons, Bool.and_eq_true] at h2
    have hvald : val.isDict = false := by
      revert h2
      cases val.isDict <;> simp
    rw [merge_cons_not_dict d1 key val rest hvald]
    exact ih (all_leaf_setKey d1 key val h1 hvald) h2.2

theorem lookupV_all_leaf : ∀ (l : List (String × Value)) (f : String) (v : Value),
    all_leaf_values l = true → lookupV l f = some v → v.isDict = false := by
  intro l f v
  induction l with
  | nil =>
    intro _ hl
    simp [lookupV] at hl
  | cons hd tl ih =>
    obtain ⟨k, w⟩ := hd
    intro h hl
    simp only [all_leaf_values, List.all_cons, Bool.and_eq_true] at h
    simp only [lookupV] at hl
    by_cases hk : k = f
    · rw [if_pos hk] at hl
      injection hl with hv
      subst hv
      simpa using h.1
    · rw [if_neg hk] at hl
      exact ih h.2 hl

theorem lookupV_from_dict_fill_defaults (defs m : List (String × Value)) (f : String) :
    lookupV (from_dict_fill_defaults defs m) f =
      (lookupV defs f).map (fun dflt => (lookupV m f).getD dflt) := by
  induction defs with
  | nil => simp [from_dict_fill_defaults, lookupV]
  | cons hd rest ih =>
    obtain ⟨g, dflt⟩ := hd
    simp only [from_dict_fill_defaults, lookupV]
    by_cases hg : g = f
    · subst hg
      rw [if_pos rfl, if_pos rfl]
      rfl
    · rw [if_neg hg, if_neg hg]
      exact ih

/-- Claim C6: for every pair of value trees `low` and `high`,
`merge_nested_dicts low high` maps every key present in `high` to the high
value, except that when both trees hold nested mappings at the same key the
result holds their recursive merge; keys present only in `low` keep the low
value; sequences (like every other non-mapping high value) replace the low
value wholesale, never merging element-wise. -/
theorem merge_nested_dicts_spec (d1 d2 : List (String × Value)) (h : nodupKeys d2)
    (f : String) :
    (lookupV d2 f = none → lookupV (merge_nested_dicts d1 d2) f = lookupV d1 f)
    ∧ (∀ v2, lookupV d2 f = some v2 → v2.isDict = false →
        lookupV (merge_nested_dicts d1 d2) f = some v2)
    ∧ (∀ v2, lookupV d2 f = some v2 →
        (∀ m1, lookupV d1 f = some (Value.dict m1) → False) →
        lookupV (merge_nested_dicts d1 d2) f = some v2)
    ∧ (∀ m1 m2, lookupV d1 f = some (Value.dict m1) →
        lookupV d2 f = some (Value.dict m2) →
        lookupV (merge_nested_dicts d1 d2) f =
          some (Value.dict (merge_nested_dicts m1 m2))) := by
  refine ⟨?_, ?_, ?_, ?_⟩
  · intro h2
    rw [lookupV_merge d1 d2 h f, h2]
  · intro v2 h2 hv2
    rw [lookupV_merge d1 d2 h f, h2]
    show some (mergeVal (lookupV d1 f) v2) = some v2
    rw [mergeVal_high_not_dict _ _ hv2]
  · intro v2 h2 hno
    rw [lookupV_merge d1 d2 h f, h2]
    show some (mergeVal (lookupV d1 f) v2) = some v2
    cases hd1 : lookupV d1 f with
    | none => rw [mergeVal_none]
    | some v1 =>
      cases v1 with
      | dict m1 => exact absurd hd1 (fun hh => hno m1 hh)
      | int n => rw [mergeVal_low_not_dict (Value.int n) v2 rfl]
      | str s => rw [mergeVal_low_not_dict (Value.str s) v2 rfl]
      | bool b => rw [mergeVal_low_not_dict (Value.bool b) v2 rfl]
      | notfilled => rw [mergeVal_low_not_dict Value.notfilled v2 rfl]
      | list xs => rw [mergeVal_low_not_dict (Value.list xs) v2 rfl]
  · intro m1 m2 hd1 hd2
    rw [lookupV_merge d1 d2 h f, hd2]
    show some (mergeVal (lookupV d1 f) (Value.dict m2)) = _
    rw [hd1, mergeVal_dict_dict]

/-- Claim C6 witness: merging a high tree whose value at a key is a
sequence replaces the low sequence at that key wholesale. -/
theorem merge_nested_dicts_spec_witness :
    lookupV (merge_nested_dicts
        [("l", Value.list [Value.int 1, Value.int 2]), ("a", Value.int 7)]
        [("l", Value.list [Value.int 9])]) "l" = some (Value.list [Value.int 9]) :=
  (merge_nested_dicts_spec
      [("l", Value.list [Value.int 1, Value.int 2]), ("a", Value.int 7)]
      [("l", Value.list [Value.int 9])] (by decide) "l").2.1
    (Value.list [Value.int 9]) rfl rfl

/-- Claim C7: the merge operation is not associative: grouping
`merge(merge(a, b), c)` differs from `merge(a, merge(b, c))` at
`a = (k maps to (x maps to 1))`, `b = (k maps to 2)`,
`c = (k maps to (y maps to 3))`. -/
theorem merge_nested_dicts_not_associative :
    merge_nested_dicts
        (merge_nested_dicts [("k", Value.dict [("x", Value.int 1)])] [("k", Value.int 2)])
        [("k", Value.dict [("y", Value.int 3)])] ≠
      merge_nested_dicts [("k", Value.dict [("x", Value.int 1)])]
        (merge_nested_dicts [("k", Value.int 2)] [("k", Value.dict [("y", Value.int 3)])]) := by
  simp [merge_nested_dicts, lookupV, setKey]

theorem pruned_clean_cons_dict (k : String) (m rest : List (String × Value)) :
    pruned_entries_clean ((k, Value.dict m) :: rest) =
      (!(m.isEmpty) && pruned_entries_clean m && pruned_entries_clean rest) := by
  simp [pruned_entries_clean]

theorem pruned_clean_cons_other (k : String) (v : Value) (rest : List (String × Value))
    (hd : v.isDict = false) (hnf : is_notfilled v = false) :
    pruned_entries_clean ((k, v) :: rest) = pruned_entries_clean rest := by
  cases v with
  | dict m => simp [Value.isDict] at hd
  | notfilled => simp [is_notfilled] at hnf
  | int n => simp [pruned_entries_clean]
  | str s => simp [pruned_entries_clean]
  | bool b => simp [pruned_entries_clean]
  | list xs => simp [pruned_entries_clean]

/-- Claim C5 counterexample: a sentinel inside a sequence survives
`remove_notfilled_values`, so a Sentinel can remain in the pruned tree,
contrary to the claim that none remains anywhere including inside
sequences. -/
theorem remove_notfilled_values_sequence_counterexample :
    contains_notfilled (Value.dict (remove_notfilled_values
      [("a", Value.list [Value.notfilled])])) = true := by
  simp [remove_notfilled_values, contains_notfilled, is_notfilled]

/-- Claim C5 (amended): after pruning, no entry of the resulting tree maps
to a Sentinel, recursively through nested mappings, and no nested mapping
is left empty; sequences however are kept wholesale and are not traversed,
so sentinels inside them are not pruned. -/
theorem remove_notfilled_values_amended (l : List (String × Value)) :
    pruned_entries_clean (remove_notfilled_values l) = true := by
  induction l using remove_notfilled_values.induct with
  | case1 => simp [remove_notfilled_values, pruned_entries_clean]
  | case2 k m rest hemp ihm ihrest =>
    rw [remove_notfilled_values.eq_2, if_pos hemp]
    exact ihrest
  | case3 k m rest hemp ihm ihrest =>
    rw [remove_notfilled_values.eq_2, if_neg hemp, pruned_clean_cons_dict]
    have hne : (remove_notfilled_values m).isEmpty = false := by
      revert hemp
      cases (remove_notfilled_values m).isEmpty <;> simp
    simp [hne, ihm, ihrest]
  | case4 k v rest hnd h2 ihrest =>
    rw [remove_notfilled_values.eq_3 k v rest hnd, if_pos h2]
    exact ihrest
  | case5 k v rest hnd h2 ihrest =>
    rw [remove_notfilled_values.eq_3 k v rest hnd, if_neg h2]
    have hdv : v.isDict = false := by
      cases v with
      | dict m => exact absurd rfl (fun hh => hnd m hh)
      | int n => rfl
      | str s => rfl
      | bool b => rfl
      | notfilled => rfl
      | list xs => rfl
    have hnfv : is_notfilled v = false := by
      revert h2
      cases is_notfilled v <;> simp
    rw [pruned_clean_cons_other k v _ hdv hnfv]
    exact ihrest

theorem parse_core (defaults cfgD cmdline extra : List (String × Value)) (f : String)
    (d : Value)
    (hn1 : nodupKeys cmdline) (hn2 : nodupKeys extra)
    (hl1 : all_leaf_values cmdline = true) (hl2 : all_leaf_values extra = true)
    (hd : lookupV defaults f = some d) :
    lookupV (from_dict_fill_defaults defaults (from_dict_fill_defaults defaults
        (merge_nested_dicts cfgD (merge_nested_dicts cmdline extra)))) f =
      some ((first_some (first_some (lookupV extra f) (lookupV cmdline f))
        (lookupV cfgD f)).getD d) := by
  have hfirstnodup : nodupKeys (merge_nested_dicts cmdline extra) :=
    nodupKeys_merge cmdline extra hn1
  have hfirstleaf : all_leaf_values (merge_nested_dicts cmdline extra) = true :=
    all_leaf_merge cmdline extra hl1 hl2
  have hm1 : lookupV (merge_nested_dicts cmdline extra) f =
      first_some (lookupV extra f) (lookupV cmdline f) := by
    rw [lookupV_merge cmdline extra hn2 f]
    cases he : lookupV extra f with
    | none => rfl
    | some v2 =>
      have hv2 : v2.isDict = false := lookupV_all_leaf extra f v2 hl2 he
      show some (mergeVal (lookupV cmdline f) v2) = first_some (some v2) (lookupV cmdline f)
      rw [mergeVal_high_not_dict _ _ hv2]
      rfl
  have hm2 : lookupV (merge_nested_dicts cfgD (merge_nested_dicts cmdline extra)) f =
      first_some (lookupV (merge_nested_dicts cmdline extra) f) (lookupV cfgD f) := by
    rw [lookupV_merge _ _ hfirstnodup f]
    cases hfm : lookupV (merge_nested_dicts cmdline extra) f with
    | none => rfl
    | some v2 =>
      have hv2 : v2.isDict = false :=
        lookupV_all_leaf (merge_nested_dicts cmdline extra) f v2 hfirstleaf hfm
      show some (mergeVal (lookupV cfgD f) v2) = first_some (some v2) (lookupV cfgD f)
      rw [mergeVal_high_not_dict _ _ hv2]
      rfl
  rw [lookupV_from_dict_fill_defaults, lookupV_from_dict_fill_defaults, hd]
  simp only [Option.map_some', Option.getD_some]
  rw [hm2, hm1]

/-- Claim C1: for a flat record schema, the field finally resolved by
`parse_arguments_with_command_line_args` equals the value from the
highest-precedence source among base-default, config-file, command-line
and explicit-override that specifies the field, each unspecified field
falling through to the next-lower source. -/
theorem parse_arguments_precedence
    (defaults : List (String × Value)) (config_file : Option (List (String × Value)))
    (cmdline extra : List (String × Value)) (f : String) (d : Value)
    (hn1 : nodupKeys cmdline) (hn2 : nodupKeys extra)
    (hl1 : all_leaf_values cmdline = true) (hl2 : all_leaf_values extra = true)
    (hd : lookupV defaults f = some d) :
    lookupV (parse_arguments_with_command_line_args defaults config_file cmdline extra) f =
      some ((first_some (first_some (lookupV extra f) (lookupV cmdline f))
        (lookupV (match config_file with | some cfg => cfg | none => defaults) f)).getD d) := by
  cases config_file with
  | none => exact parse_core defaults defaults cmdline extra f d hn1 hn2 hl1 hl2 hd
  | some cfg => exact parse_core defaults cfg cmdline extra f d hn1 hn2 hl1 hl2 hd

/-- Claim C1 witness, the precedence-law example: schema
`x : int = 0, y : str = "default"`, config file sets `x = 1`, command line
sets `x = 42`, the explicit override sets `y = "from_extra"`; the resolved
record is `x = 42, y = "from_extra"`. -/
theorem parse_arguments_precedence_witness :
    lookupV (parse_arguments_with_command_line_args
        [("x", Value.int 0), ("y", Value.str "default")]
        (some [("x", Value.int 1)])
        [("x", Value.int 42)]
        [("y", Value.str "from_extra")]) "x" = some (Value.int 42)
    ∧ lookupV (parse_arguments_with_command_line_args
        [("x", Value.int 0), ("y", Value.str "default")]
        (some [("x", Value.int 1)])
        [("x", Value.int 42)]
        [("y", Value.str "from_extra")]) "y" = some (Value.str "from_extra") :=
  ⟨(parse_arguments_precedence
      [("x", Value.int 0), ("y", Value.str "default")]
      (some [("x", Value.int 1)])
      [("x", Value.int 42)]
      [("y", Value.str "from_extra")] "x" (Value.int 0)
      (by decide) (by decide) (by decide) (by decide) rfl).trans rfl,
   (parse_arguments_precedence
      [("x", Value.int 0), ("y", Value.str "default")]
      (some [("x", Value.int 1)])
      [("x", Value.int 42)]
      [("y", Value.str "from_extra")] "y" (Value.str "default")
      (by decide) (by decide) (by decide) (by decide) rfl).trans rfl⟩

theorem union_attempts_first_success (decode : String → Except String Value) :
    ∀ (pre : List String) (t : String) (post : List String) (v : Value)
      (errs : List String),
      (∀ u ∈ pre, ∃ e, decode u = Except.error e) → decode t = Except.ok v →
      union_attempts decode (pre ++ t :: post) errs = Except.ok v := by
  intro pre
  induction pre with
  | nil =>
    intro t post v errs _ ht
    simp [union_attempts, ht]
  | cons u rest ih =>
    intro t post v errs hfail ht
    obtain ⟨e, he⟩ := hfail u (by simp)
    simp only [List.cons_append, union_attempts, he]
    exact ih t post v _ (fun w hw => hfail w (by simp [hw])) ht

theorem union_attempts_all_fail (decode : String → Except String Value)
    (err : String → String) :
    ∀ (l : List String) (errs : List String),
      (∀ t ∈ l, decode t = Except.error (err t)) →
      union_attempts decode l errs =
        Except.error (errs ++ l.map (fun t => union_fail_msg t (err t))) := by
  intro l
  induction l with
  | nil =>
    intro errs _
    simp [union_attempts]
  | cons t rest ih =>
    intro errs hfail
    have ht := hfail t (by simp)
    simp only [union_attempts, ht, List.map_cons]
    rw [ih _ (fun u hu => hfail u (by simp [hu]))]
    simp

/-- Claim C3: the union branch of `from_dict_with_union_handling` attempts
the members strictly in declared order, returns the first member that
decodes successfully, and fails only when every member fails, the
aggregated error carrying one failure reason per attempted member in trial
order. -/
theorem from_dict_with_union_handling_spec (decode : String → Except String Value)
    (union_types : List String) (err : String → String) :
    (∀ (pre : List String) (t : String) (post : List String) (v : Value),
        union_types = pre ++ t :: post →
        (∀ u ∈ pre, ∃ e, decode u = Except.error e) → decode t = Except.ok v →
        from_dict_with_union_handling decode union_types = Except.ok v)
    ∧ ((∀ t ∈ union_types, decode t = Except.error (err t)) →
        from_dict_with_union_handling decode union_types =
          Except.error (union_types.map (fun t => union_fail_msg t (err t)))) := by
  constructor
  · intro pre t post v heq hfail ht
    show union_attempts decode union_types [] = Except.ok v
    rw [heq]
    exact union_attempts_first_success decode pre t post v [] hfail ht
  · intro hfail
    show union_attempts decode union_types [] = _
    rw [union_attempts_all_fail decode err union_types [] hfail]
    simp

/-- Claim C3 witness: with members tried in order `OptionA, OptionB` where
`OptionA` fails to decode and `OptionB` succeeds, the union decoder
returns the `OptionB` result. -/
theorem from_dict_with_union_handling_spec_witness :
    from_dict_with_union_handling
        (fun t => if t = "OptionB" then Except.ok (Value.str "hello")
                  else Except.error "wrong shape")
        ["OptionA", "OptionB"] = Except.ok (Value.str "hello") :=
  (from_dict_with_union_handling_spec
      (fun t => if t = "OptionB" then Except.ok (Value.str "hello")
                else Except.error "wrong shape")
      ["OptionA", "OptionB"] (fun _ => "wrong shape")).1
    ["OptionA"] "OptionB" [] (Value.str "hello") rfl
    (by
      intro u hu
      simp only [List.mem_singleton] at hu
      subst hu
      exact ⟨"wrong shape", rfl⟩)
    rfl

/-- Claim C2: in per-field resolution of a record-valued field the three
contributions are merged left-to-right with the external-file reference
(CASE 1) lowest, the inline value (CASE 2) in the middle, and the
overwrite (CASE 3) highest; consequently a non-mapping value the overwrite
resolution assigns to a key is the resolved value at that key. -/
theorem resolve_one_field_merge_order
    (fieldName p : String) (strict : Bool)
    (vm om dA dB dC : List (String × Value))
    (resolve_yaml : String → Except String (List (String × Value)))
    (resolve_direct : Value → Except String (List (String × Value)))
    (resolve_overwrite : Value → List (String × Value))
    (hA : resolve_yaml p = Except.ok dA)
    (hB : resolve_direct (Value.dict vm) = Except.ok dB)
    (hC : resolve_overwrite (Value.dict om) = dC)
    (z : String) (v : Value)
    (hz : lookupV dC z = some v) (hnd : nodupKeys dC) (hv : v.isDict = false) :
    resolve_extended_object_to_dict_one_field fieldName true strict
        (Value.dict vm) (Value.str p) (Value.dict om)
        resolve_yaml resolve_direct resolve_overwrite =
      Except.ok (Value.dict (merge_nested_dicts (merge_nested_dicts
        (merge_nested_dicts [] dA) dB) dC))
    ∧ lookupV (merge_nested_dicts (merge_nested_dicts
        (merge_nested_dicts [] dA) dB) dC) z = some v := by
  constructor
  · simp [resolve_extended_object_to_dict_one_field, hA, hB, hC, is_notfilled,
      Except.map]
  · rw [lookupV_merge _ dC hnd z, hz]
    show some (mergeVal _ v) = some v
    rw [mergeVal_high_not_dict _ _ hv]

/-- Claim C2 witness: a field whose path reference resolves to a file
setting `z = 1` while the overwrite sets `z = 100` resolves `z` to 100. -/
theorem resolve_one_field_merge_order_witness :
    resolve_extended_object_to_dict_one_field "nested" true true
        (Value.dict []) (Value.str "nested.yaml") (Value.dict [("z", Value.int 100)])
        (fun _ => Except.ok [("z", Value.int 1)])
        (fun _ => Except.ok [])
        (fun _ => [("z", Value.int 100)]) =
      Except.ok (Value.dict (merge_nested_dicts (merge_nested_dicts
        (merge_nested_dicts [] [("z", Value.int 1)]) []) [("z", Value.int 100)]))
    ∧ lookupV (merge_nested_dicts (merge_nested_dicts
        (merge_nested_dicts [] [("z", Value.int 1)]) []) [("z", Value.int 100)]) "z"
      = some (Value.int 100) :=
  resolve_one_field_merge_order "nested" "nested.yaml" true
    [] [("z", Value.int 100)] [("z", Value.int 1)] [] [("z", Value.int 100)]
    (fun _ => Except.ok [("z", Value.int 1)])
    (fun _ => Except.ok [])
    (fun _ => [("z", Value.int 100)])
    rfl rfl rfl "z" (Value.int 100) rfl (by decide) rfl

/-- Claim C4: for a record-valued field with neither an inline value nor a
path reference, strict mode raises the missing-value-or-path error naming
the field (whatever the overwrite contribution), while non-strict mode
resolves the same input successfully to the empty placeholder mapping,
left to be pruned. -/
theorem resolve_one_field_strict_mode
    (fieldName : String) (overwrite_val : Value)
    (resolve_yaml : String → Except String (List (String × Value)))
    (resolve_direct : Value → Except String (List (String × Value)))
    (resolve_overwrite : Value → List (String × Value))
    (how : overwrite_val = Value.notfilled ∨ ∃ m, overwrite_val = Value.dict m) :
    resolve_extended_object_to_dict_one_field fieldName true true
        Value.notfilled Value.notfilled overwrite_val
        resolve_yaml resolve_direct resolve_overwrite =
      Except.error (missing_value_or_path_msg fieldName)
    ∧ resolve_extended_object_to_dict_one_field fieldName true false
        Value.notfilled Value.notfilled Value.notfilled
        resolve_yaml resolve_direct resolve_overwrite =
      Except.ok (Value.dict []) := by
  constructor
  · rcases how with h | ⟨m, h⟩ <;> subst h <;>
      simp [resolve_extended_object_to_dict_one_field, is_notfilled]
  · simp [resolve_extended_object_to_dict_one_field, is_notfilled]

/-- Claim C4 witness: the strict-mode error and the non-strict empty
placeholder at a concrete field with every contribution left at the
sentinel. -/
theorem resolve_one_field_strict_mode_witness :
    resolve_extended_object_to_dict_one_field "my_field" true true
        Value.notfilled Value.notfilled Value.notfilled
        (fun _ => Except.ok []) (fun _ => Except.ok []) (fun _ => []) =
      Except.error (missing_value_or_path_msg "my_field")
    ∧ resolve_extended_object_to_dict_one_field "my_field" true false
        Value.notfilled Value.notfilled Value.notfilled
        (fun _ => Except.ok []) (fun _ => Except.ok []) (fun _ => []) =
      Except.ok (Value.dict []) :=
  resolve_one_field_strict_mode "my_field" Value.notfilled
    (fun _ => Except.ok []) (fun _ => Except.ok []) (fun _ => []) (Or.inl rfl)

/-- Claim C8: `resolve_package_path` returns a path without the
`package://` scheme unchanged; with the scheme it joins the remainder
under the package root; and it raises the package-root-required error
exactly when the scheme is present and no package root was provided. -/
theorem resolve_package_path_spec (path : String) (package_root : Option String) :
    (str_starts path "package://" = false →
        resolve_package_path path package_root = Except.ok path)
    ∧ (∀ root, str_starts path "package://" = true → package_root = some root →
        resolve_package_path path package_root =
          Except.ok (os_path_join root (drop_chars path "package://".length)))
    ∧ ((∃ e, resolve_package_path path package_root = Except.error e) ↔
        (str_starts path "package://" = true ∧ package_root = none)) := by
  refine ⟨?_, ?_, ?_⟩
  · intro h
    simp [resolve_package_path, h]
  · intro root hs hr
    subst hr
    simp [resolve_package_path, hs]
  · constructor
    · rintro ⟨e, he⟩
      by_cases hs : str_starts path "package://" = true
      · cases hroot : package_root with
        | none => exact ⟨hs, rfl⟩
        | some root =>
          rw [hroot] at he
          simp [resolve_package_path, hs] at he
      · have hs2 : str_starts path "package://" = false := by
          revert hs
          cases str_starts path "package://" <;> simp
        simp [resolve_package_path, hs2] at he
    · rintro ⟨hs, hr⟩
      subst hr
      exact ⟨"\x27package://\x27 path used (" ++ path ++
        "), but no package_root was provided.", by simp [resolve_package_path, hs]⟩

/-- Claim C8 witness: a package-relative reference is joined under the
provided package root. -/
theorem resolve_package_path_spec_witness :
    resolve_package_path "package://configs/a.yaml" (some "/pkg") =
      Except.ok "/pkg/configs/a.yaml" :=
  ((resolve_package_path_spec "package://configs/a.yaml" (some "/pkg")).2.1
      "/pkg" (by decide) rfl).trans rfl

theorem selfref_diverges_all (fuel : Nat) :
    derive_optional_paths selfRefEnv fuel "A" [] = none
    ∧ transform_fields selfRefEnv fuel
        [("child", TyExpr.union [TyExpr.data "A", TyExpr.noneTy])] [] = none
    ∧ replace_nested_types selfRefEnv fuel
        (TyExpr.union [TyExpr.data "A", TyExpr.noneTy]) [] = none
    ∧ replace_nested_list selfRefEnv fuel [TyExpr.data "A", TyExpr.noneTy] [] = none
    ∧ replace_nested_types selfRefEnv fuel (TyExpr.data "A") [] = none := by
  induction fuel with
  | zero =>
    refine ⟨?_, ?_, ?_, ?_, ?_⟩ <;>
      simp [derive_optional_paths, transform_fields, replace_nested_types,
        replace_nested_list]
  | succ fuel ih =>
    obtain ⟨ihD, ihTF, ihU, ihL, ihA⟩ := ih
    simp only [selfRefEnv] at ihD ihTF ihU ihL ihA ⊢
    refine ⟨?_, ?_, ?_, ?_, ?_⟩
    · simp [derive_optional_paths, cache_lookup, env_lookup, ihTF]
    · simp [transform_fields, ihU]
    · simp [replace_nested_types, ihL]
    · simp [replace_nested_list, ihA]
    · simp [replace_nested_types, ihD]

/-- Claim C9: the source inserts a class into the `_processed` cache only
after all of its fields have been transformed, so deriving the shadow
schema of a self-referential dataclass recurses into itself with an
unchanged cache and never completes: on the graph
`class A: child: A | None`, the derivation exhausts every recursion
budget. The in-progress reuse the claim describes does not exist in the
code; only completed derivations are served from the cache. -/
theorem derive_optional_paths_selfref_diverges (fuel : Nat) :
    derive_optional_paths selfRefEnv fuel "A" [] = none :=
  (selfref_diverges_all fuel).1

/-- Claim C10: on the empty input mapping
`resolve_extended_dict_to_dict_allow_notfilled` returns the empty mapping
immediately, for every target dataclass and every strict-flag setting,
performing neither shadow-schema derivation nor any binding against the
target class. -/
theorem resolve_extended_dict_empty_shortcircuit
    (base_cls : String) (raise_error_with_nones : Bool)
    (make_shadow : String → DClass)
    (bind_and_resolve : DClass → List (String × Value) → Bool → List (String × Value)) :
    resolve_extended_dict_to_dict_allow_notfilled [] base_cls raise_error_with_nones
        make_shadow bind_and_resolve = ([], []) := rfl
